import Mathlib

/-!
Verification development for jaegercat (`src/main.rs`).

The program is a passive Jaeger trace sink: it spawns one UDP listener per
thrift wire protocol (compact on one port, binary on another), each running an
unbounded receive loop that decodes every datagram with
`EmitBatchNotification::decode(bytes, protocol)` and, on success, writes the
message to stdout in the selected output format; it also spawns an HTTP
sampling responder bound to `127.0.0.1:5778` answering `GET /sampling` from a
fixed allow-list of service names, and finally joins all threads.

The decoder (`jaegercat::thrift`, an external collaborator per the design) and
the JSON serializer (`serdeconv`) are modelled as opaque function parameters
`decode`, `toJson`, `toJsonPretty`; everything else is translated from
`src/main.rs` directly.  Bytes are modelled as `Nat`, byte buffers as
`List Nat`; strings at the Unicode-scalar level (exact for the ASCII data the
program manipulates).
-/

namespace Jaegercat

/-- Thrift wire-protocol tag (`jaegercat::thrift::Protocol`): selects the
decode variant.  `main.rs` lines 103-106 pair each tag with its port. -/
inductive Protocol
  | Compact
  | Binary
deriving DecidableEq, Repr

/-- Output format selector (`enum Format`, `main.rs` lines 217-222). -/
inductive Format
  | Raw
  | Json
  | JsonPretty
deriving DecidableEq, Repr

/-- One successful write to the stdout sink.  `bytes bs` models the
`io::copy(&mut bytes, &mut stdout)` of the `Format::Raw` arm (raw received
bytes, verbatim); `text s` models one `writeln!(stdout, "...", json)` call,
whose payload `s` includes the trailing newline. -/
inductive StdoutWrite
  | bytes (bs : List Nat)
  | text (s : String)
deriving DecidableEq, Repr

/-- Per-listener configuration (port, wire-protocol tag, receive-buffer
size), fixed before the listener thread is spawned (`main.rs` 103-115). -/
structure ListenerConfig where
  port : Nat
  protocol : Protocol
  buffer_size : Nat
deriving DecidableEq, Repr

/-- The two UDP listeners started by `main` (`main.rs` 103-108): the
compact-thrift port with `Protocol::Compact`, then the binary-thrift port
with `Protocol::Binary`, both sharing the configured buffer size. -/
def listeners (compact_thrift_port binary_thrift_port udp_buffer_size : Nat) :
    List ListenerConfig :=
  [⟨compact_thrift_port, Protocol.Compact, udp_buffer_size⟩,
   ⟨binary_thrift_port, Protocol.Binary, udp_buffer_size⟩]

/-- The bytes handed to `decode` for one datagram (`main.rs` 115-120):
`recv_from` copies at most `buffer_size` bytes of the datagram into
`buf = vec![0; udp_buffer_size]` and returns `recv_size`, the number copied
(the datagram length, truncated at the buffer size); the decode input is then
the slice `&buf[..recv_size]`, i.e. the first `buffer_size` bytes of the
datagram. -/
def receivedBytes (buffer_size : Nat) (datagram : List Nat) : List Nat :=
  datagram.take buffer_size

section Pipeline

variable {M : Type}

/-- The format dispatch of the receive loop (`main.rs` 129-148) for one
decoded message: `Raw` copies the received bytes themselves to stdout;
`Json` and `JsonPretty` write the serialized message plus a newline
(`writeln!`) as one write under the stdout lock. -/
def formatEmit (toJson toJsonPretty : M → String) (format : Format)
    (bytes : List Nat) (message : M) : StdoutWrite :=
  match format with
  | Format.Raw => StdoutWrite.bytes bytes
  | Format.Json => StdoutWrite.text (toJson message ++ "\n")
  | Format.JsonPretty => StdoutWrite.text (toJsonPretty message ++ "\n")

/-- What one iteration of a listener loop observes from the outside world:
either `recv_from` yields a datagram (`writeFails` records whether the
stdout write for it would fail, should one be attempted), or `recv_from`
itself fails. -/
inductive LoopEvent
  | datagram (d : List Nat) (writeFails : Bool)
  | recvErr (msg : String)
deriving DecidableEq, Repr

/-- Result of running one listener unit over a finite prefix of events:
the decode invocations it made (input bytes and protocol tag, in order),
the successful stdout writes (in order), and whether the unit aborted
(`some msg` when a `track_try_unwrap!` panicked the thread: receive error
or stdout write error; decode errors never set it). -/
structure UnitRun where
  decodeCalls : List (List Nat × Protocol)
  writes : List StdoutWrite
  aborted : Option String
deriving DecidableEq, Repr

/-- The UDP listener receive loop (`main.rs` 114-152), run over a finite
list of events.  Per iteration: a receive error panics the unit at once
(`track_try_unwrap!`, line 117-118) — no decode, no write, no further
events.  Otherwise the truncated datagram bytes are decoded with the
listener's fixed protocol tag (line 121); on decode failure the error is
only logged and the loop continues (lines 122-125); on success the message
is formatted and written to locked stdout (lines 126-148), a write failure
panicking the unit (`track_try_unwrap!` around `io::copy` / `writeln!`). -/
def runUnit (decode : List Nat → Protocol → Option M)
    (toJson toJsonPretty : M → String) (cfg : ListenerConfig)
    (format : Format) : List LoopEvent → UnitRun
  | [] => ⟨[], [], none⟩
  | LoopEvent.recvErr msg :: _ => ⟨[], [], some msg⟩
  | LoopEvent.datagram d writeFails :: rest =>
      let bytes := receivedBytes cfg.buffer_size d
      match decode bytes cfg.protocol with
      | none =>
          let r := runUnit decode toJson toJsonPretty cfg format rest
          ⟨(bytes, cfg.protocol) :: r.decodeCalls, r.writes, r.aborted⟩
      | some m =>
          if writeFails then
            ⟨[(bytes, cfg.protocol)], [], some "failed to write to stdout"⟩
          else
            let r := runUnit decode toJson toJsonPretty cfg format rest
            ⟨(bytes, cfg.protocol) :: r.decodeCalls,
             formatEmit toJson toJsonPretty format bytes m :: r.writes,
             r.aborted⟩

end Pipeline

/-! ## Sampling responder (`main.rs` 156-215)

The HTTP side: `SamplingService::call` answers `GET /sampling` from an
allow-list, everything else with `404`.  The query string is parsed with
`form_urlencoded::parse` (url crate): split on `&` skipping empty pieces,
split each piece at the first `=` (missing value decodes as the empty
string), replace `+` by space, then percent-decode.  Characters stand in
for bytes, which is exact on ASCII input. -/

/-- HTTP request method (hyper `Method`); the handler only distinguishes
`Get` from everything else. -/
inductive Method
  | Get
  | Post
  | Put
  | Delete
  | Head
  | Options
  | Patch
deriving DecidableEq, Repr

/-- The parts of a hyper `Request` that `SamplingService::call` inspects:
method, path, and the raw query string (`req.uri().query()`, `none` when
the URI has no `?`). -/
structure Request where
  method : Method
  path : String
  query : Option String
deriving DecidableEq, Repr

/-- The parts of the hyper `Response` the handler sets: status code, body,
and the `ContentLength` header when explicitly added. -/
structure HttpResponse where
  status : Nat
  body : String
  contentLength : Option Nat
deriving DecidableEq, Repr

/-- The fixed sampling payload (`SAMPLE_ALL_RESP`, `main.rs` line 34). -/
def SAMPLE_ALL_RESP : String :=
  "\x7b\"strategyType\": \"PROBABILISTIC\", \"probabilisticSampling\": \x7b\"samplingRate\": 1\x7d\x7d"

/-- Split a character list on a separator character; like repeated
`splitn(2, sep)`, it yields one (possibly empty) group per separator gap. -/
def splitOnChar (sep : Char) : List Char → List (List Char)
  | [] => [[]]
  | c :: rest =>
      if c = sep then [] :: splitOnChar sep rest
      else
        match splitOnChar sep rest with
        | [] => [[c]]
        | g :: gs => (c :: g) :: gs

/-- Split one `name=value` piece at the first `=` (`splitn(2, '=')` with
`unwrap_or` empty): no `=` gives an empty value. -/
def splitFirstEq : List Char → List Char × List Char
  | [] => ([], [])
  | c :: rest =>
      if c = '=' then ([], rest)
      else
        let nv := splitFirstEq rest
        (c :: nv.1, nv.2)

/-- `form_urlencoded`'s `replace_plus`: `+` decodes as a space. -/
def replacePlus (s : List Char) : List Char :=
  s.map (fun c => if c = '+' then ' ' else c)

/-- Value of a hex digit, upper or lower case. -/
def hexDigitVal (c : Char) : Option Nat :=
  if '0' ≤ c ∧ c ≤ '9' then some (c.toNat - '0'.toNat)
  else if 'a' ≤ c ∧ c ≤ 'f' then some (c.toNat - 'a'.toNat + 10)
  else if 'A' ≤ c ∧ c ≤ 'F' then some (c.toNat - 'A'.toNat + 10)
  else none

/-- Percent-decoding: `%` followed by two hex digits decodes to that code;
an ill-formed `%` sequence passes through unchanged. -/
def percentDecode : List Char → List Char
  | [] => []
  | '%' :: c1 :: c2 :: rest =>
      match hexDigitVal c1, hexDigitVal c2 with
      | some h1, some h2 => Char.ofNat (16 * h1 + h2) :: percentDecode rest
      | _, _ => '%' :: percentDecode (c1 :: c2 :: rest)
  | c :: rest => c :: percentDecode rest

/-- `form_urlencoded::parse(query)` (`main.rs` line 197): the ordered list
of decoded `(name, value)` pairs — split on `&`, drop empty pieces, split
each piece at the first `=`, decode both sides (`+` to space, then
percent-decode). -/
def formUrlencodedPairs (query : String) : List (String × String) :=
  ((splitOnChar '&' query.toList).filter (fun piece => piece ≠ [])).map
    (fun piece =>
      let nv := splitFirstEq piece
      (String.mk (percentDecode (replacePlus nv.1)),
       String.mk (percentDecode (replacePlus nv.2))))

/-- `pairs.collect::<HashMap<String, String>>().get(key)`: collecting
inserts the pairs in order and a later insert of the same key overwrites
the earlier one, so the lookup sees the last pair with the given key. -/
def hashMapGet (pairs : List (String × String)) (key : String) :
    Option String :=
  pairs.foldl (fun acc p => if p.1 = key then some p.2 else acc) none

/-- The state of `SamplingService` that `call` consults (`main.rs`
175-179); the logger field only produces diagnostics and is omitted.
`enabled_services` is the `--sample-services` allow-list, a `HashSet`
queried with `contains` (exact, case-sensitive equality). -/
structure SamplingService where
  enabled_services : List String
deriving DecidableEq, Repr

/-- The service name a `GET /sampling` request is looked up under
(`main.rs` 193-201): the `service` entry of the parsed query parameters
(absent query string counts as empty), or the literal `"unknown"` when
there is none. -/
def requestServiceName (req : Request) : String :=
  let query := (req.query).getD ""
  let params := formUrlencodedPairs query
  (hashMapGet params "service").getD "unknown"

/-- `SamplingService::call` (`main.rs` 190-214): `GET /sampling` with an
allow-listed service name gets `200` with the fixed sampling body and its
`ContentLength`; a non-member name, any other path, or any other method
gets `404` with an empty body. -/
def samplingCall (svc : SamplingService) (req : Request) : HttpResponse :=
  if req.method = Method.Get ∧ req.path = "/sampling" then
    if requestServiceName req ∈ svc.enabled_services then
      ⟨200, SAMPLE_ALL_RESP, some SAMPLE_ALL_RESP.length⟩
    else
      ⟨404, "", none⟩
  else
    ⟨404, "", none⟩

/-- The validated startup configuration handed to the core by the CLI
collaborator (`main.rs` 83-100). -/
structure Config where
  compact_thrift_port : Nat
  binary_thrift_port : Nat
  format : Format
  udp_buffer_size : Nat
  log_level : String
  sample_services : List String
deriving DecidableEq, Repr

/-- The sampling responder's bind address (`main.rs` line 159): the string
literal `"127.0.0.1:5778"`, built without consulting the configuration. -/
def samplingBindAddr (_cfg : Config) : String :=
  "127.0.0.1:5778"

/-- The supervisor's exit behaviour (`main.rs` 170-172): `main` joins every
thread with `let _ = t.join();`, discarding each join result, and then
returns normally — so whatever the units did (even a panic that aborted a
unit), the process exit code produced by this stage is `0`. -/
def supervisorExitCode (_results : List UnitRun) : Nat :=
  0

/-! ## Theorems -/

/-- C10: the sampling responder's HTTP listener address is the fixed
loopback `127.0.0.1:5778`, the same for every run and for every
configuration: no CLI option influences it. -/
theorem sampling_addr_fixed_loopback (cfg cfg2 : Config) :
    samplingBindAddr cfg = "127.0.0.1:5778" ∧
      samplingBindAddr cfg = samplingBindAddr cfg2 :=
  ⟨rfl, rfl⟩

/-- C2: `SamplingService::call` answers `200 OK` with exactly the fixed
sampling body (and its content length) precisely when the request is
`GET /sampling` and the looked-up service name — the `service` query
parameter, or the literal `"unknown"` when that parameter is absent — is a
member of the allow-list under exact string equality; every other request
gets `404` with an empty body. -/
theorem sampling_allow_list_correct (svc : SamplingService) (req : Request) :
    (samplingCall svc req =
      if req.method = Method.Get ∧ req.path = "/sampling"
          ∧ requestServiceName req ∈ svc.enabled_services then
        HttpResponse.mk 200 SAMPLE_ALL_RESP (some SAMPLE_ALL_RESP.length)
      else
        HttpResponse.mk 404 "" none)
  ∧ (hashMapGet (formUrlencodedPairs ((req.query).getD "")) "service" = none →
      requestServiceName req = "unknown") := by
  constructor
  · unfold samplingCall
    by_cases h1 : req.method = Method.Get ∧ req.path = "/sampling"
    · by_cases h2 : requestServiceName req ∈ svc.enabled_services
      · rw [if_pos h1, if_pos h2, if_pos ⟨h1.1, h1.2, h2⟩]
      · rw [if_pos h1, if_neg h2, if_neg (fun h => h2 h.2.2)]
    · rw [if_neg h1, if_neg (fun h => h1 ⟨h.1, h.2.1⟩)]
  · intro h
    have hrsn : requestServiceName req =
        (hashMapGet (formUrlencodedPairs ((req.query).getD "")) "service").getD
          "unknown" := rfl
    rw [hrsn, h]
    rfl

/-- Witness for C2: with allow-list `["checkout"]`, the request
`GET /sampling?service=checkout` gets the `200` sampling response, and a
request with no query string is looked up as `"unknown"`. -/
theorem sampling_allow_list_correct_witness :
    samplingCall ⟨["checkout"]⟩ ⟨Method.Get, "/sampling", some "service=checkout"⟩ =
        HttpResponse.mk 200 SAMPLE_ALL_RESP (some SAMPLE_ALL_RESP.length)
  ∧ requestServiceName ⟨Method.Get, "/sampling", none⟩ = "unknown" := by
  constructor
  · exact (sampling_allow_list_correct ⟨["checkout"]⟩
      ⟨Method.Get, "/sampling", some "service=checkout"⟩).1.trans (by decide)
  · exact (sampling_allow_list_correct ⟨["checkout"]⟩
      ⟨Method.Get, "/sampling", none⟩).2 (by decide)

/-- C8: a `GET /sampling` request whose `service` parameter is present with
an empty value is looked up under the empty string — not `"unknown"` — and
is granted `200` precisely when the empty string itself is allow-listed. -/
theorem sampling_empty_service_value (svc : SamplingService) :
    requestServiceName ⟨Method.Get, "/sampling", some "service="⟩ = ""
  ∧ (samplingCall svc ⟨Method.Get, "/sampling", some "service="⟩ =
        HttpResponse.mk 200 SAMPLE_ALL_RESP (some SAMPLE_ALL_RESP.length) ↔
      "" ∈ svc.enabled_services) := by
  have hn : requestServiceName ⟨Method.Get, "/sampling", some "service="⟩ = "" := by
    decide
  refine ⟨hn, ?_⟩
  have hcall : samplingCall svc ⟨Method.Get, "/sampling", some "service="⟩ =
      if "" ∈ svc.enabled_services then
        HttpResponse.mk 200 SAMPLE_ALL_RESP (some SAMPLE_ALL_RESP.length)
      else
        HttpResponse.mk 404 "" none := by
    unfold samplingCall
    rw [if_pos ⟨rfl, rfl⟩]
    simp only [hn]
  rw [hcall]
  by_cases hm : ("" : String) ∈ svc.enabled_services
  · rw [if_pos hm]
    exact ⟨fun _ => hm, fun _ => rfl⟩
  · rw [if_neg hm]
    exact ⟨fun h => absurd (congrArg HttpResponse.status h) (by decide),
           fun hmem => absurd hmem hm⟩

/-- Folding the insert-overwrite step over the pairs (what collecting into
a `HashMap` and then looking a key up amounts to) returns the value of the
last pair carrying the key — the first hit in the reversed list — falling
back to the initial accumulator. -/
theorem hashMapGet_foldl_eq_or (key : String) (pairs : List (String × String)) :
    ∀ acc : Option String,
      pairs.foldl (fun a p => if p.1 = key then some p.2 else a) acc =
        ((pairs.reverse.find? (fun p => p.1 == key)).map Prod.snd).or acc := by
  induction pairs with
  | nil => intro acc; rfl
  | cons p ps ih =>
      intro acc
      rw [List.foldl_cons, ih, List.reverse_cons, List.find?_append]
      cases hf : ps.reverse.find? (fun q => q.1 == key) with
      | some v => rfl
      | none =>
          by_cases hp : p.1 = key
          · simp [List.find?, hp]
          · have hb : (p.1 == key) = false := beq_eq_false_iff_ne.mpr hp
            simp [List.find?, hb]
            exact fun h => absurd h hp

/-- `hashMapGet` returns the value of the last pair with the given key. -/
theorem hashMapGet_eq_lastOccurrence (pairs : List (String × String))
    (key : String) :
    hashMapGet pairs key =
      (pairs.reverse.find? (fun p => p.1 == key)).map Prod.snd := by
  rw [hashMapGet, hashMapGet_foldl_eq_or, Option.or_none]

/-- C9: when the `service` query parameter occurs several times, only the
last occurrence (in query-string order) decides the lookup — the parsed
pairs are collected into a map keyed by parameter name, so a later pair
overwrites an earlier one — and the response depends on the query string
only through that last occurrence. -/
theorem sampling_duplicate_service_last_wins (svc : SamplingService)
    (q : String) :
    hashMapGet (formUrlencodedPairs q) "service" =
      ((formUrlencodedPairs q).reverse.find? (fun p => p.1 == "service")).map
        Prod.snd
  ∧ samplingCall svc ⟨Method.Get, "/sampling", some q⟩ =
      (if ((((formUrlencodedPairs q).reverse.find?
            (fun p => p.1 == "service")).map Prod.snd).getD "unknown")
          ∈ svc.enabled_services then
        HttpResponse.mk 200 SAMPLE_ALL_RESP (some SAMPLE_ALL_RESP.length)
      else
        HttpResponse.mk 404 "" none) := by
  have hmap := hashMapGet_eq_lastOccurrence (formUrlencodedPairs q) "service"
  refine ⟨hmap, ?_⟩
  have hrsn : requestServiceName ⟨Method.Get, "/sampling", some q⟩ =
      (hashMapGet (formUrlencodedPairs q) "service").getD "unknown" := rfl
  unfold samplingCall
  rw [if_pos ⟨rfl, rfl⟩]
  simp only [hrsn, hmap]

/-- C1: within one listener's receive loop, a datagram that fails to decode
produces no stdout write and is never fatal — the remaining datagrams are
processed exactly as they would have been — while a datagram that decodes
successfully produces exactly one formatted write, prepended to the output
of the rest of the sequence. -/
theorem decode_failure_isolated {M : Type} (decode : List Nat → Protocol → Option M)
    (toJson toJsonPretty : M → String) (cfg : ListenerConfig) (format : Format)
    (d : List Nat) (rest : List LoopEvent) :
    (decode (receivedBytes cfg.buffer_size d) cfg.protocol = none →
      (runUnit decode toJson toJsonPretty cfg format
          (LoopEvent.datagram d false :: rest)).writes =
          (runUnit decode toJson toJsonPretty cfg format rest).writes
      ∧ (runUnit decode toJson toJsonPretty cfg format
          (LoopEvent.datagram d false :: rest)).aborted =
          (runUnit decode toJson toJsonPretty cfg format rest).aborted)
  ∧ (∀ m : M, decode (receivedBytes cfg.buffer_size d) cfg.protocol = some m →
      (runUnit decode toJson toJsonPretty cfg format
          (LoopEvent.datagram d false :: rest)).writes =
          formatEmit toJson toJsonPretty format (receivedBytes cfg.buffer_size d) m ::
            (runUnit decode toJson toJsonPretty cfg format rest).writes
      ∧ (runUnit decode toJson toJsonPretty cfg format
          (LoopEvent.datagram d false :: rest)).aborted =
          (runUnit decode toJson toJsonPretty cfg format rest).aborted) := by
  constructor
  · intro h
    refine ⟨?_, ?_⟩ <;> simp [runUnit, h]
  · intro m h
    refine ⟨?_, ?_⟩ <;> simp [runUnit, h]

/-- Witness for C1: a decoder accepting only the datagram `[1]`; in a
sequence of a malformed datagram followed by a well-formed one, the bad
one emits nothing and the loop goes on to emit exactly one line for the
good one, with no abort. -/
theorem decode_failure_isolated_witness :
    (runUnit (fun b _ => if b = [1] then some () else none) (fun _ => "m")
        (fun _ => "m") ⟨6831, Protocol.Compact, 10⟩ Format.Json
        [LoopEvent.datagram [2] false, LoopEvent.datagram [1] false]).writes =
      [StdoutWrite.text "m\n"]
  ∧ (runUnit (fun b _ => if b = [1] then some () else none) (fun _ => "m")
        (fun _ => "m") ⟨6831, Protocol.Compact, 10⟩ Format.Json
        [LoopEvent.datagram [2] false, LoopEvent.datagram [1] false]).aborted =
      none := by
  have h := (decode_failure_isolated (fun b _ => if b = [1] then some () else none)
      (fun _ => "m") (fun _ => "m") ⟨6831, Protocol.Compact, 10⟩ Format.Json
      [2] [LoopEvent.datagram [1] false]).1 (by decide)
  exact ⟨h.1.trans (by decide), h.2.trans (by decide)⟩

/-- C3: with the `Raw` output format, a successfully decoded datagram's
stdout write is exactly the received (possibly truncated) bytes, byte for
byte — not a re-encoding of the decoded message. -/
theorem raw_output_is_received_bytes {M : Type}
    (decode : List Nat → Protocol → Option M) (toJson toJsonPretty : M → String)
    (cfg : ListenerConfig) (d : List Nat) (rest : List LoopEvent) (m : M)
    (h : decode (receivedBytes cfg.buffer_size d) cfg.protocol = some m) :
    (runUnit decode toJson toJsonPretty cfg Format.Raw
        (LoopEvent.datagram d false :: rest)).writes =
      StdoutWrite.bytes (receivedBytes cfg.buffer_size d) ::
        (runUnit decode toJson toJsonPretty cfg Format.Raw rest).writes := by
  simp [runUnit, h, formatEmit]

/-- Witness for C3: a decoder accepting everything; in `Raw` format the
datagram `[7, 8, 9]` is written back verbatim. -/
theorem raw_output_is_received_bytes_witness :
    (runUnit (fun _ _ => some ()) (fun _ => "") (fun _ => "")
        ⟨6831, Protocol.Compact, 4⟩ Format.Raw
        [LoopEvent.datagram [7, 8, 9] false]).writes =
      [StdoutWrite.bytes [7, 8, 9]] := by
  have h := raw_output_is_received_bytes (fun _ _ => some ()) (fun _ => "")
      (fun _ => "") ⟨6831, Protocol.Compact, 4⟩ [7, 8, 9] [] () rfl
  exact h.trans (by decide)

/-- C4: the bytes handed to `decode` are the datagram truncated at the
configured buffer size: the decode input recorded for a datagram is
exactly `receivedBytes buffer_size d`, whose length never exceeds the
buffer size, equals the buffer size when the datagram is larger, and which
is the whole datagram when it fits. -/
theorem decode_input_truncated_at_buffer_size {M : Type}
    (decode : List Nat → Protocol → Option M) (toJson toJsonPretty : M → String)
    (cfg : ListenerConfig) (format : Format) (d : List Nat) (writeFails : Bool)
    (rest : List LoopEvent) :
    ((runUnit decode toJson toJsonPretty cfg format
        (LoopEvent.datagram d writeFails :: rest)).decodeCalls).head? =
        some (receivedBytes cfg.buffer_size d, cfg.protocol)
  ∧ (receivedBytes cfg.buffer_size d).length ≤ cfg.buffer_size
  ∧ (cfg.buffer_size < d.length →
      (receivedBytes cfg.buffer_size d).length = cfg.buffer_size)
  ∧ (d.length ≤ cfg.buffer_size → receivedBytes cfg.buffer_size d = d) := by
  refine ⟨?_, List.length_take_le _ _, ?_, ?_⟩
  · cases hdec : decode (receivedBytes cfg.buffer_size d) cfg.protocol with
    | none => simp [runUnit, hdec]
    | some m => cases writeFails <;> simp [runUnit, hdec]
  · intro hlt
    simp only [receivedBytes, List.length_take]
    omega
  · intro hle
    exact List.take_of_length_le hle

/-- Witness for C4: with buffer size 3 the five-byte datagram is truncated
to its first three bytes; with buffer size 6 it is decoded in full. -/
theorem decode_input_truncated_at_buffer_size_witness :
    (receivedBytes 3 [1, 2, 3, 4, 5]).length = 3
  ∧ receivedBytes 6 [1, 2, 3, 4, 5] = [1, 2, 3, 4, 5] := by
  have h1 := decode_input_truncated_at_buffer_size
      (fun _ _ => (none : Option Unit)) (fun _ => "") (fun _ => "")
      ⟨6831, Protocol.Compact, 3⟩ Format.Json [1, 2, 3, 4, 5] false []
  have h2 := decode_input_truncated_at_buffer_size
      (fun _ _ => (none : Option Unit)) (fun _ => "") (fun _ => "")
      ⟨6831, Protocol.Compact, 6⟩ Format.Json [1, 2, 3, 4, 5] false []
  exact ⟨h1.2.2.1 (by decide), h2.2.2.2 (by decide)⟩

/-- C5: every successfully decoded datagram results in exactly one stdout
write — one emission prepended to the rest of the run, whatever the
selected format — and for the `Json` and `JsonPretty` formats that write
is a single text write terminated by a newline. -/
theorem one_write_per_decoded_datagram {M : Type}
    (decode : List Nat → Protocol → Option M) (toJson toJsonPretty : M → String)
    (cfg : ListenerConfig) (format : Format) (d : List Nat)
    (rest : List LoopEvent) (m : M)
    (h : decode (receivedBytes cfg.buffer_size d) cfg.protocol = some m) :
    (runUnit decode toJson toJsonPretty cfg format
        (LoopEvent.datagram d false :: rest)).writes =
        formatEmit toJson toJsonPretty format (receivedBytes cfg.buffer_size d) m ::
          (runUnit decode toJson toJsonPretty cfg format rest).writes
  ∧ (format = Format.Json →
      formatEmit toJson toJsonPretty format (receivedBytes cfg.buffer_size d) m =
        StdoutWrite.text (toJson m ++ "\n"))
  ∧ (format = Format.JsonPretty →
      formatEmit toJson toJsonPretty format (receivedBytes cfg.buffer_size d) m =
        StdoutWrite.text (toJsonPretty m ++ "\n")) := by
  refine ⟨by simp [runUnit, h], ?_, ?_⟩
  · rintro rfl; rfl
  · rintro rfl; rfl

/-- Witness for C5: a decoder accepting everything and serializing to
`"j"`; in `Json` format the single write is the text `"j"` plus a
newline. -/
theorem one_write_per_decoded_datagram_witness :
    (runUnit (fun _ _ => some ()) (fun _ => "j") (fun _ => "jp")
        ⟨6831, Protocol.Compact, 4⟩ Format.Json
        [LoopEvent.datagram [7] false]).writes =
      [StdoutWrite.text "j\n"] := by
  have h := one_write_per_decoded_datagram (fun _ _ => some ()) (fun _ => "j")
      (fun _ => "jp") ⟨6831, Protocol.Compact, 4⟩ Format.Json [7] [] () rfl
  exact h.1.trans (by decide)

/-- Every decode call a listener unit makes carries the unit's fixed
wire-protocol tag, and its input never exceeds the unit's buffer size. -/
theorem runUnit_decodeCalls_inv {M : Type}
    (decode : List Nat → Protocol → Option M) (toJson toJsonPretty : M → String)
    (cfg : ListenerConfig) (format : Format) :
    ∀ events : List LoopEvent,
      ∀ call ∈ (runUnit decode toJson toJsonPretty cfg format events).decodeCalls,
        call.2 = cfg.protocol ∧ call.1.length ≤ cfg.buffer_size := by
  intro events
  induction events with
  | nil => intro call hc; simp [runUnit] at hc
  | cons e rest ih =>
      intro call hc
      cases e with
      | recvErr msg => simp [runUnit] at hc
      | datagram d writeFails =>
          cases hdec : decode (receivedBytes cfg.buffer_size d) cfg.protocol with
          | none =>
              simp only [runUnit, hdec, List.mem_cons] at hc
              rcases hc with rfl | hc
              · exact ⟨rfl, List.length_take_le _ _⟩
              · exact ih call hc
          | some m =>
              cases writeFails with
              | true =>
                  simp [runUnit, hdec] at hc
                  subst hc
                  exact ⟨rfl, List.length_take_le _ _⟩
              | false =>
                  simp [runUnit, hdec] at hc
                  rcases hc with rfl | hc
                  · exact ⟨rfl, List.length_take_le _ _⟩
                  · exact ih call hc

/-- C6: `main` fixes each listener's wire-protocol tag at startup — the
compact-thrift port is paired with `Compact` and the binary-thrift port
with `Binary` — and every decode call a listener makes over any sequence
of events uses exactly its own tag; the two tags are distinct, so a
datagram is never decoded with the other listener's protocol. -/
theorem listener_protocol_tag_fixed {M : Type}
    (decode : List Nat → Protocol → Option M) (toJson toJsonPretty : M → String)
    (compact_thrift_port binary_thrift_port udp_buffer_size : Nat)
    (format : Format) (events : ListenerConfig → List LoopEvent) :
    ((listeners compact_thrift_port binary_thrift_port udp_buffer_size).map
        ListenerConfig.protocol = [Protocol.Compact, Protocol.Binary])
  ∧ (∀ cfg ∈ listeners compact_thrift_port binary_thrift_port udp_buffer_size,
      ∀ call ∈ (runUnit decode toJson toJsonPretty cfg format
          (events cfg)).decodeCalls,
        call.2 = cfg.protocol)
  ∧ Protocol.Compact ≠ Protocol.Binary := by
  refine ⟨rfl, ?_, by decide⟩
  intro cfg _ call hc
  exact (runUnit_decodeCalls_inv decode toJson toJsonPretty cfg format
    (events cfg) call hc).1

/-- Witness for C6: with the default ports, the listener list pairs 6831
with `Compact` and 6832 with `Binary`, and a concrete run of the compact
listener decodes its datagram with the `Compact` tag. -/
theorem listener_protocol_tag_fixed_witness :
    ((listeners 6831 6832 65000).map ListenerConfig.protocol =
        [Protocol.Compact, Protocol.Binary])
  ∧ ∀ call ∈ (runUnit (fun _ _ => (none : Option Unit)) (fun _ => "")
        (fun _ => "") ⟨6831, Protocol.Compact, 65000⟩ Format.Json
        [LoopEvent.datagram [1] false]).decodeCalls,
      call.2 = Protocol.Compact := by
  have h := listener_protocol_tag_fixed (fun _ _ => (none : Option Unit))
      (fun _ => "") (fun _ => "") 6831 6832 65000 Format.Json
      (fun _ => [LoopEvent.datagram [1] false])
  exact ⟨h.1, h.2.1 ⟨6831, Protocol.Compact, 65000⟩ (by decide)⟩

/-- C7 counterexample: a concrete run in which a listener unit hits a
receive error — the unit aborts with the error message — yet the
supervisor's join stage still produces process exit code `0`, because
`main` discards every join result; this refutes the claim that such a
fatal error yields an immediate non-zero process exit and that a unit's
exit is not masked. -/
theorem unit_abort_masked_counterexample :
    (runUnit (fun _ _ => (none : Option Unit)) (fun _ => "") (fun _ => "")
        ⟨6831, Protocol.Compact, 65000⟩ Format.Json
        [LoopEvent.recvErr "recv failed"]).aborted = some "recv failed"
  ∧ supervisorExitCode
      [runUnit (fun _ _ => (none : Option Unit)) (fun _ => "") (fun _ => "")
        ⟨6831, Protocol.Compact, 65000⟩ Format.Json
        [LoopEvent.recvErr "recv failed"]] = 0 :=
  ⟨rfl, rfl⟩

/-- C7 (amended): a receive error or a stdout write error is fatal to the
affected listener unit — the unit aborts at once with a descriptive error
and processes nothing further — but the supervisor discards every join
result (`let _ = t.join();`), so a unit's abnormal exit is masked and the
join stage always contributes process exit code `0`, never a non-zero
exit. -/
theorem fatal_errors_abort_unit_but_are_masked {M : Type}
    (decode : List Nat → Protocol → Option M) (toJson toJsonPretty : M → String)
    (cfg : ListenerConfig) (format : Format) (msg : String)
    (events rest : List LoopEvent) (d : List Nat) (m : M)
    (h : decode (receivedBytes cfg.buffer_size d) cfg.protocol = some m) :
    runUnit decode toJson toJsonPretty cfg format
        (LoopEvent.recvErr msg :: events) = ⟨[], [], some msg⟩
  ∧ (runUnit decode toJson toJsonPretty cfg format
        (LoopEvent.datagram d true :: rest)).aborted =
      some "failed to write to stdout"
  ∧ ∀ results : List UnitRun, supervisorExitCode results = 0 := by
  refine ⟨rfl, ?_, fun _ => rfl⟩
  simp [runUnit, h]

/-- Witness for C7 (amended): with an always-accepting decoder, a receive
error aborts the unit with its message, a failing stdout write aborts the
unit, and the supervisor still exits with code `0`. -/
theorem fatal_errors_abort_unit_but_are_masked_witness :
    runUnit (fun _ _ => some ()) (fun _ => "") (fun _ => "")
        ⟨6831, Protocol.Compact, 4⟩ Format.Json
        [LoopEvent.recvErr "recv failed"] = ⟨[], [], some "recv failed"⟩
  ∧ (runUnit (fun _ _ => some ()) (fun _ => "") (fun _ => "")
        ⟨6831, Protocol.Compact, 4⟩ Format.Json
        [LoopEvent.datagram [5] true]).aborted = some "failed to write to stdout"
  ∧ supervisorExitCode [] = 0 := by
  have h := fatal_errors_abort_unit_but_are_masked (fun _ _ => some ())
      (fun _ => "") (fun _ => "") ⟨6831, Protocol.Compact, 4⟩ Format.Json
      "recv failed" [] [] [5] () rfl
  exact ⟨h.1, h.2.1, h.2.2 []⟩

end Jaegercat
